import Mathlib

/-
Verification of the mktotp secrets store (src/mktotp/secrets.py and
src/mktotp/func_impl.py) against its specification.

The embedding models Python values that matter to the store as a small
JSON-like type, Python dicts (insertion-ordered, unique keys) as
association lists with in-place update semantics, and the secrets file
plus its `.tmp`/`.bak` siblings as an explicit file-system record.
External collaborators (pyotp URI parsing, TOTP code computation, QR
decoding) are taken as function parameters, as the spec treats them as
black boxes.
-/

namespace Mktotp

/-- JSON-like values, covering what the store reads and writes. -/
inductive Json where
  | null : Json
  | bool : Bool → Json
  | num : Int → Json
  | str : String → Json
  | arr : List Json → Json
  | obj : List (String × Json) → Json
  deriving Repr

/-- A Python dict with string keys, modelled as an insertion-ordered
association list (unique keys are an invariant of the values the program
builds, not of the type). -/
abbrev Entries := List (String × Json)

/-- The in-memory secret store: `SecretMgr.secret_data`, a dict from
secret name to the record dict. -/
abbrev Store := Entries

/-- Python `d.get(k)` / `d[k]`: first (and, for dicts, only) binding. -/
def dget : Entries → String → Option Json
  | [], _ => none
  | p :: rest, k => if p.1 = k then some p.2 else dget rest k

/-- Python `k in d`. -/
def dmem (d : Entries) (k : String) : Bool :=
  (dget d k).isSome

/-- Python `d[k] = v`: replaces in place (keeping the key's position) when
the key is present, appends otherwise. -/
def dset : Entries → String → Json → Entries
  | [], k, v => [(k, v)]
  | p :: rest, k, v => if p.1 = k then (k, v) :: rest else p :: dset rest k v

/-- Python `del d[k]`. -/
def ddel (d : Entries) (k : String) : Entries :=
  d.filter (fun p => p.1 != k)

/-- Field access on a record value: `record.get(k)` when the value is a
dict, nothing otherwise. -/
def recGet (j : Json) (k : String) : Option Json :=
  match j with
  | .obj kvs => dget kvs k
  | _ => none

/-- Field update on a record value: `record[k] = v` when the value is a
dict (the program only ever updates dict-shaped records). -/
def objSet (j : Json) (k : String) (v : Json) : Json :=
  match j with
  | .obj kvs => .obj (dset kvs k v)
  | x => x

/-- Python truthiness of a JSON-shaped value. -/
def jtruthy : Json → Bool
  | .null => false
  | .bool b => b
  | .num n => n != 0
  | .str s => s != ""
  | .arr xs => !xs.isEmpty
  | .obj kvs => !kvs.isEmpty

/-- The error taxonomy raised by the store code: `FileNotFoundError`,
`json.JSONDecodeError`, the two distinct `ValueError` messages raised by
`load`, the `ValueError` of `register_secret` and `gen_totp_token`, the
lock `Timeout`, and `IOError` from `save`. -/
inductive Err where
  | notFound : Err
  | parseError : Err
  | formatErrorTop : Err
  | formatErrorSecrets : Err
  | invalidQr : String → Err
  | secretNotFound : String → Err
  | timeout : Err
  | ioError : Err
  deriving Repr, DecidableEq

/-- What `pyotp.parse_uri` yields on success: the account label
(`totp.name`), the issuer and the base32 secret. -/
structure ParsedUri where
  account : String
  issuer : String
  secret : String
  deriving Repr, DecidableEq

/-- The record dict built by `SecretMgr.register_secret` for one parsed
URI. -/
def mkRecord (sec_name : String) (p : ParsedUri) : Json :=
  .obj [("name", .str sec_name), ("account", .str p.account),
        ("issuer", .str p.issuer), ("secret", .str p.secret)]

/-- `name if cnt == 1 else f"{name}_{cnt}"` from `register_secret`. -/
def deriveName (name : String) (cnt : Nat) : String :=
  if cnt = 1 then name else name ++ "_" ++ toString cnt

/-- The loop of `SecretMgr.register_secret`: walks the QR payload strings
with the counter `cnt` (starting at 1), registering each parsed record
into the dict as it goes; the first parse failure aborts the whole call
with `ValueError`, keeping the mutations already made to `secret_data`.
Returns (raised error if any, final `secret_data`, `result` list). -/
def regLoop (parse : String → Option ParsedUri) (name : String) :
    Store → List Json → Nat → List String → Option Err × Store × List Json
  | store, result, _, [] => (none, store, result)
  | store, result, cnt, q :: rest =>
    match parse q with
    | some p =>
      let sec := mkRecord (deriveName name cnt) p
      regLoop parse name (dset store (deriveName name cnt) sec)
        (result ++ [sec]) (cnt + 1) rest
    | none => (some (.invalidQr q), store, result)

/-- `SecretMgr.register_secret(name, qrc_datas)`. `parse` stands for the
external `pyotp.parse_uri` (`none` models both an exception and a falsy
return, which the source maps to the same `ValueError`). -/
def register_secret (parse : String → Option ParsedUri) (store : Store)
    (name : String) (qrc_datas : List String) : Option Err × Store × List Json :=
  regLoop parse name store [] 1 qrc_datas

/-- `SecretMgr.get_secret(key)`: `secret_data.get(key, {}).get('secret', None)`. -/
def get_secret (store : Store) (key : String) : Option Json :=
  recGet ((dget store key).getD (.obj [])) "secret"

/-- `SecretMgr.gen_totp_token(token_name)`; `totp_now` stands for the
external `pyotp.TOTP(s=secret).now()`. -/
def gen_totp_token (totp_now : Json → String) (store : Store)
    (token_name : String) : Except Err String :=
  match get_secret store token_name with
  | some s =>
    if jtruthy s then .ok (totp_now s)
    else .error (.secretNotFound token_name)
  | none => .error (.secretNotFound token_name)

/-- `SecretMgr.remove_secret(name)`: returns whether the name was found
(and removed) together with the resulting dict. -/
def remove_secret (store : Store) (name : String) : Bool × Store :=
  if dmem store name then (true, ddel store name) else (false, store)

/-- `SecretMgr.rename_secret(old_name, new_name)`: when the old name is
present, its record gets its `name` field rewritten, is stored under the
new key (overwriting silently), and the old key is deleted. -/
def rename_secret (store : Store) (old_name new_name : String) : Bool × Store :=
  match dget store old_name with
  | some secret =>
    (true, ddel (dset store new_name (objSet secret "name" (.str new_name))) old_name)
  | none => (false, store)

/-- `SecretMgr.list_secrets()` as found in the source: all record dicts in
key order. -/
def list_secrets (store : Store) : List Json :=
  store.map (fun p => p.2)

/-- Content of one file: either a JSON document or bytes that do not parse
as JSON. -/
inductive FData where
  | text : Json → FData
  | garbage : FData
  deriving Repr

/-- What `open` + `json.load` on the secrets path can encounter. -/
inductive FileContent where
  | missing : FileContent
  | notJson : FileContent
  | json : Json → FileContent
  deriving Repr

/-- The per-record step of `SecretMgr.load`: only dict elements whose
`name` field is truthy are inserted, keyed by that name; everything else
is skipped silently. Names are modelled as strings (the data model's
`name` type). -/
def insRecord (acc : Store) (x : Json) : Store :=
  match x with
  | .obj kvs =>
    match dget kvs "name" with
    | some (.str n) => if n = "" then acc else dset acc n x
    | _ => acc
  | _ => acc

/-- `SecretMgr.load` on a fresh manager (`secret_data` starts empty):
missing file raises `FileNotFoundError`, non-JSON content raises
`json.JSONDecodeError`, a non-dict document raises `ValueError` (invalid
data format), a non-list `secrets` value raises `ValueError` (invalid
secret format); otherwise each dict element with a truthy name is loaded. -/
def load_fc (fc : FileContent) : Except Err Store :=
  match fc with
  | .missing => .error .notFound
  | .notJson => .error .parseError
  | .json (.obj kvs) =>
    match (dget kvs "secrets").getD (.arr []) with
    | .arr xs => .ok (xs.foldl insRecord [])
    | _ => .error .formatErrorSecrets
  | .json _ => .error .formatErrorTop

/-- The secrets path and its `.tmp` and `.bak` siblings. -/
structure FS where
  main : Option FData
  tmp : Option FData
  bak : Option FData
  deriving Repr

/-- The document `SecretMgr.save` serializes: the record dicts in key
order plus version and timestamp; `last_update` is the externally supplied
clock reading. -/
def save_doc (store : Store) (last_update : String) : Json :=
  .obj [("secrets", .arr (store.map (fun p => p.2))),
        ("version", .str "1.0"),
        ("last_update", .str last_update)]

/-- Injected failure points for `save`: during the write of the temporary
file (steps 2) or while setting its permissions (step 3). -/
inductive SaveFail where
  | atWrite : SaveFail
  | atPerm : SaveFail
  deriving Repr, DecidableEq

/-- `SecretMgr.save`: write the document to the `.tmp` sibling, set its
permissions, then (if the main file exists) drop the old `.bak` and move
main to `.bak`, and finally move `.tmp` onto the main path. A failure in
steps 2 or 3 raises `IOError` before the main path is touched. -/
def save_fs (fs : FS) (doc : Json) (fail : Option SaveFail) : Option Err × FS :=
  match fail with
  | some .atWrite => (some .ioError, fs)
  | some .atPerm => (some .ioError, { fs with tmp := some (.text doc) })
  | none =>
    let fs1 : FS := { fs with tmp := some (.text doc) }
    let fs2 : FS :=
      if fs1.main.isSome then { fs1 with bak := fs1.main, main := none } else fs1
    (none, { fs2 with main := fs2.tmp, tmp := none })

/-- Reading the main path back as `load` input. -/
def readMain (fs : FS) : FileContent :=
  match fs.main with
  | none => .missing
  | some .garbage => .notJson
  | some (.text j) => .json j

/-- Modelled from the spec: `SecretMgr.remove_secrets(names)` is called by
`func_impl.remove_secrets` and exercised by the tests but its body is not
among the available sources. Per the spec it removes every present name in
input order via the single-name removal and returns the subset actually
found and removed. -/
def remove_secrets (store : Store) : List String → Store × List String
  | [] => (store, [])
  | n :: rest =>
    let r := remove_secret store n
    let t := remove_secrets r.2 rest
    (t.1, if r.1 then n :: t.2 else t.2)

/-- Dropping the `secret` field from one record value. -/
def scrubSecret (j : Json) : Json :=
  match j with
  | .obj kvs => .obj (ddel kvs "secret")
  | x => x

/-- Modelled from the spec: `SecretMgr.list_secrets(include_secret)` as
called by `func_impl.get_secret_list` is not among the available sources
(the available `list_secrets` takes no parameter). Per the spec it returns
all records in key order, omitting the `secret` field of each record when
`include_secret` is false. -/
def list_secrets_inc (store : Store) (include_secret : Bool) : List Json :=
  if include_secret then store.map (fun p => p.2)
  else store.map (fun p => scrubSecret p.2)

/-- Lock events emitted by a session. -/
inductive LockEv where
  | acquired : LockEv
  | released : LockEv
  deriving Repr, DecidableEq

/-- The lock timeout used by the sessions (the spec's default of about ten
seconds). -/
def default_lock_timeout : Nat := 10

/-- Whether the lock is still held after replaying a session's lock
events, starting from the free state. -/
def heldAfter (evs : List LockEv) : Bool :=
  evs.foldl (fun _ e => match e with | .acquired => true | .released => false) false

/-- Outcome of running one store operation inside a session. -/
structure SessOut (α : Type) where
  result : Except Err α
  fs : FS
  trace : List LockEv

/-- Modelled from the spec: the `SecretMgr` context manager
(`__enter__`/`__exit__`) used by every `func_impl` operation is not among
the available sources. On entry it acquires the exclusive lock for the
path with the default timeout, failing with a Timeout error when the lock
does not become available within the budget (`availAfter` is the time
until the lock frees up); on every exit, normal or exceptional, it calls
`release()`. -/
def withSession (availAfter : Nat) (fs : FS)
    (body : FS → Except Err α × FS) : SessOut α :=
  if availAfter ≤ default_lock_timeout then
    let r := body fs
    ⟨r.1, r.2, [.acquired, .released]⟩
  else
    ⟨.error .timeout, fs, []⟩

/-- Body of `func_impl.register_secret`: load, register the decoded QR
payloads, save. `qr_datas` stands for the output of the external
`decode_qrcode`. -/
def regBody (parse : String → Option ParsedUri) (new_name : String)
    (qr_datas : List String) (ts : String) (sfail : Option SaveFail)
    (fs : FS) : Except Err (List Json) × FS :=
  match load_fc (readMain fs) with
  | .error e => (.error e, fs)
  | .ok store =>
    let r := register_secret parse store new_name qr_datas
    match r.1 with
    | some e => (.error e, fs)
    | none =>
      let s := save_fs fs (save_doc r.2.1 ts) sfail
      match s.1 with
      | some e => (.error e, s.2)
      | none => (.ok r.2.2, s.2)

/-- `func_impl.register_secret` inside its session. -/
def fi_register_secret (parse : String → Option ParsedUri) (new_name : String)
    (qr_datas : List String) (ts : String) (sfail : Option SaveFail)
    (availAfter : Nat) (fs : FS) : SessOut (List Json) :=
  withSession availAfter fs (regBody parse new_name qr_datas ts sfail)

/-- Body of `func_impl.gen_token`: load, then generate. -/
def tokenBody (totp_now : Json → String) (name : String) (fs : FS) :
    Except Err String × FS :=
  match load_fc (readMain fs) with
  | .error e => (.error e, fs)
  | .ok store => (gen_totp_token totp_now store name, fs)

/-- `func_impl.gen_token` inside its session. -/
def fi_gen_token (totp_now : Json → String) (name : String)
    (availAfter : Nat) (fs : FS) : SessOut String :=
  withSession availAfter fs (tokenBody totp_now name)

/-- Body of `func_impl.get_secret_list`: load, then list without secrets. -/
def listBody (fs : FS) : Except Err (List Json) × FS :=
  match load_fc (readMain fs) with
  | .error e => (.error e, fs)
  | .ok store => (.ok (list_secrets_inc store false), fs)

/-- `func_impl.get_secret_list` inside its session. -/
def fi_get_secret_list (availAfter : Nat) (fs : FS) : SessOut (List Json) :=
  withSession availAfter fs listBody

/-- Body of `func_impl.remove_secrets`: load, remove, save only when
something was removed. -/
def removeBody (names : List String) (ts : String) (sfail : Option SaveFail)
    (fs : FS) : Except Err (List String) × FS :=
  match load_fc (readMain fs) with
  | .error e => (.error e, fs)
  | .ok store =>
    let r := remove_secrets store names
    if r.2.isEmpty then (.ok r.2, fs)
    else
      let s := save_fs fs (save_doc r.1 ts) sfail
      match s.1 with
      | some e => (.error e, s.2)
      | none => (.ok r.2, s.2)

/-- `func_impl.remove_secrets` inside its session. -/
def fi_remove_secrets (names : List String) (ts : String)
    (sfail : Option SaveFail) (availAfter : Nat) (fs : FS) : SessOut (List String) :=
  withSession availAfter fs (removeBody names ts sfail)

/-- Body of `func_impl.rename_secret`: load, rename, save only on
success. -/
def renameBody (name new_name : String) (ts : String) (sfail : Option SaveFail)
    (fs : FS) : Except Err Bool × FS :=
  match load_fc (readMain fs) with
  | .error e => (.error e, fs)
  | .ok store =>
    let r := rename_secret store name new_name
    if r.1 then
      let s := save_fs fs (save_doc r.2 ts) sfail
      match s.1 with
      | some e => (.error e, s.2)
      | none => (.ok true, s.2)
    else (.ok false, fs)

/-- `func_impl.rename_secret` inside its session. -/
def fi_rename_secret (name new_name : String) (ts : String)
    (sfail : Option SaveFail) (availAfter : Nat) (fs : FS) : SessOut Bool :=
  withSession availAfter fs (renameBody name new_name ts sfail)

/-- Whether a JSON value is an object. -/
def isObj : Json → Bool
  | .obj _ => true
  | _ => false

/-- Whether a JSON value is an array. -/
def isArr : Json → Bool
  | .arr _ => true
  | _ => false

/-- Whether `load` keeps an element of the `secrets` array: a dict whose
`name` field is a non-empty string. -/
def isNamedRecord : Json → Bool
  | .obj kvs =>
    match dget kvs "name" with
    | some (.str n) => n != ""
    | _ => false
  | _ => false

/-! Dictionary lemmas shared by the claim theorems. -/

theorem dget_dset_self (d : Entries) (k : String) (v : Json) :
    dget (dset d k v) k = some v := by
  induction d with
  | nil => simp [dset, dget]
  | cons p rest ih =>
    by_cases h : p.1 = k
    · simp [dset, h, dget]
    · simp [dset, h, dget, ih]

theorem dget_dset_ne (d : Entries) (k k2 : String) (v : Json) (h : k ≠ k2) :
    dget (dset d k2 v) k = dget d k := by
  induction d with
  | nil => simp [dset, dget, Ne.symm h]
  | cons p rest ih =>
    by_cases hp : p.1 = k2
    · simp [dset, hp, dget, Ne.symm h]
    · simp only [dset, if_neg hp, dget]
      by_cases hk : p.1 = k <;> simp [hk, ih]

theorem dset_eq_append (d : Entries) (k : String) (v : Json)
    (h : dmem d k = false) : dset d k v = d ++ [(k, v)] := by
  induction d with
  | nil => simp [dset]
  | cons p rest ih =>
    simp only [dmem, dget] at h ih
    by_cases hp : p.1 = k
    · simp [hp] at h
    · simp only [dset, if_neg hp, List.cons_append, List.cons.injEq, true_and]
      exact ih (by simpa [hp] using h)

theorem dget_ddel_self (d : Entries) (k : String) :
    dget (ddel d k) k = none := by
  induction d with
  | nil => simp [ddel, dget]
  | cons p rest ih =>
    by_cases hp : p.1 = k
    · simpa [ddel, hp] using ih
    · simpa [ddel, dget, hp, bne] using ih

theorem dget_ddel_ne (d : Entries) (k k2 : String) (h : k ≠ k2) :
    dget (ddel d k2) k = dget d k := by
  induction d with
  | nil => simp [ddel]
  | cons p rest ih =>
    by_cases hp : p.1 = k2
    · have hd : ddel (p :: rest) k2 = ddel rest k2 := by
        simp [ddel, List.filter_cons, hp]
      rw [hd, ih]
      simp [dget, hp, Ne.symm h]
    · have ht : (p.1 != k2) = true := by simp [hp]
      have hd : ddel (p :: rest) k2 = p :: ddel rest k2 := by
        simp [ddel, List.filter_cons, ht]
      rw [hd]
      by_cases hk : p.1 = k <;> simp [dget, hk, ih]

theorem ddel_dset_self (d : Entries) (k : String) (v : Json) :
    ddel (dset d k v) k = ddel d k := by
  induction d with
  | nil => simp [dset, ddel]
  | cons p rest ih =>
    by_cases hp : p.1 = k
    · simp [dset, ddel, hp, List.filter_cons]
    · have ht : (p.1 != k) = true := by simp [hp]
      simp only [dset, if_neg hp, ddel, List.filter_cons, ht, if_true]
      simpa [ddel] using ih

theorem dget_append (a b : Entries) (k : String) :
    dget (a ++ b) k = match dget a k with | some v => some v | none => dget b k := by
  induction a with
  | nil => simp [dget]
  | cons p rest ih =>
    by_cases hp : p.1 = k <;> simp [dget, hp, ih]

theorem dget_eq_none_of_forall (d : Entries) (k : String)
    (h : ∀ p ∈ d, p.1 ≠ k) : dget d k = none := by
  induction d with
  | nil => rfl
  | cons p rest ih =>
    simp only [dget, if_neg (h p (by simp))]
    exact ih (fun q hq => h q (by simp [hq]))

theorem forall_of_dget_eq_none (d : Entries) (k : String)
    (h : dget d k = none) : ∀ p ∈ d, p.1 ≠ k := by
  induction d with
  | nil => simp
  | cons p rest ih =>
    intro q hq
    by_cases hp : p.1 = k
    · simp [dget, hp] at h
    · rcases List.mem_cons.mp hq with hq1 | hq1
      · simpa [hq1] using hp
      · exact ih (by simpa [dget, hp] using h) q hq1

theorem mem_dset (d : Entries) (k : String) (v : Json) (q : String × Json)
    (h : q ∈ dset d k v) : q ∈ d ∨ q = (k, v) := by
  induction d with
  | nil => simpa [dset] using h
  | cons p rest ih =>
    by_cases hp : p.1 = k
    · simp only [dset, if_pos hp, List.mem_cons] at h
      rcases h with h | h
      · exact Or.inr h
      · exact Or.inl (by simp [h])
    · simp only [dset, if_neg hp, List.mem_cons] at h
      rcases h with h | h
      · exact Or.inl (by simp [h])
      · rcases ih h with h2 | h2
        · exact Or.inl (by simp [h2])
        · exact Or.inr h2

/-- C7: `save` writes the serialized document to the `.tmp` sibling first,
so a failure at the write or permission step reports an error and leaves
the main path byte-for-byte unchanged; and two sequential successful saves
leave the single `.bak` slot holding exactly the document that was at the
main path immediately before the second save (the model has one `.bak`
slot, mirroring the single-generation backup, and the `.tmp` file is gone
afterwards). -/
theorem c7_save_atomic_backup :
    (∀ (fs : FS) (doc : Json) (f : SaveFail),
      (save_fs fs doc (some f)).1.isSome = true ∧
      (save_fs fs doc (some f)).2.main = fs.main) ∧
    (∀ (fs : FS) (d1 d2 : Json),
      (save_fs fs d1 none).2.main = some (.text d1) ∧
      (save_fs (save_fs fs d1 none).2 d2 none).2.bak = some (.text d1) ∧
      (save_fs (save_fs fs d1 none).2 d2 none).2.main = some (.text d2) ∧
      (save_fs (save_fs fs d1 none).2 d2 none).2.tmp = none) := by
  constructor
  · intro fs doc f
    cases f <;> simp [save_fs]
  · intro fs d1 d2
    rcases fs with ⟨m, t, b⟩
    cases m <;> simp [save_fs]

/-- C1: every exposed store operation (register, generate token, list,
remove, rename) runs inside a session that acquires the exclusive lock
with the default ten-second budget, fails with a Timeout error when the
lock does not become available in time, and releases the lock on every
exit path, so the lock is never still held after the session ends. -/
theorem c1_session_lock_discipline :
    ∀ (parse : String → Option ParsedUri) (totp_now : Json → String)
      (nm newName : String) (qr : List String) (names : List String)
      (ts : String) (sfail : Option SaveFail) (avail : Nat) (fs : FS),
      heldAfter (fi_register_secret parse nm qr ts sfail avail fs).trace = false ∧
      heldAfter (fi_gen_token totp_now nm avail fs).trace = false ∧
      heldAfter (fi_get_secret_list avail fs).trace = false ∧
      heldAfter (fi_remove_secrets names ts sfail avail fs).trace = false ∧
      heldAfter (fi_rename_secret nm newName ts sfail avail fs).trace = false ∧
      (default_lock_timeout < avail →
        (fi_register_secret parse nm qr ts sfail avail fs).result = .error .timeout ∧
        (fi_gen_token totp_now nm avail fs).result = .error .timeout ∧
        (fi_get_secret_list avail fs).result = .error .timeout ∧
        (fi_remove_secrets names ts sfail avail fs).result = .error .timeout ∧
        (fi_rename_secret nm newName ts sfail avail fs).result = .error .timeout) := by
  intro parse totp_now nm newName qr names ts sfail avail fs
  by_cases h : avail ≤ default_lock_timeout
  · refine ⟨?_, ?_, ?_, ?_, ?_, fun hlt => absurd h (by omega)⟩ <;>
      simp [fi_register_secret, fi_gen_token, fi_get_secret_list, fi_remove_secrets,
            fi_rename_secret, withSession, h, heldAfter]
  · simp [fi_register_secret, fi_gen_token, fi_get_secret_list, fi_remove_secrets,
          fi_rename_secret, withSession, h, heldAfter]

/-- An empty file-system state used by concrete instantiations. -/
def fs0 : FS := ⟨none, none, none⟩

/-- Witness for C1: at a lock that frees up only after eleven seconds, the
list operation reports a Timeout error and the lock is not held
afterwards. -/
theorem c1_session_witness :
    heldAfter (fi_get_secret_list 11 fs0).trace = false ∧
    (fi_get_secret_list 11 fs0).result = .error .timeout := by
  have h := c1_session_lock_discipline (fun _ => none) (fun _ => "") "a" "b" [] [] "t"
    none 11 fs0
  exact ⟨h.2.2.1, (h.2.2.2.2.2 (by decide)).2.2.1⟩

/-- C10: renaming an entry to its own name returns true but deletes the
entry: the insertion under the new key is undone by the deletion of the
old key, which is the same key. -/
theorem c10_rename_same_name_deletes (store : Store) (n : String)
    (h : dmem store n = true) :
    (rename_secret store n n).1 = true ∧
    (rename_secret store n n).2 = ddel store n ∧
    dmem (rename_secret store n n).2 n = false := by
  obtain ⟨v, hv⟩ : ∃ v, dget store n = some v := by
    cases hg : dget store n with
    | none => simp [dmem, hg] at h
    | some v => exact ⟨v, rfl⟩
  simp [rename_secret, hv, ddel_dset_self, dmem, dget_ddel_self]

/-- A sample record for concrete instantiations. -/
def recN : Json := .obj [("name", .str "n"), ("account", .str "a"),
  ("issuer", .str "i"), ("secret", .str "S")]

/-- Witness for C10: on a one-entry store, rename of "n" to "n" returns
true and leaves no entry named "n". -/
theorem c10_rename_same_witness :
    (rename_secret [("n", recN)] "n" "n").1 = true ∧
    (rename_secret [("n", recN)] "n" "n").2 = ddel [("n", recN)] "n" ∧
    dmem (rename_secret [("n", recN)] "n" "n").2 "n" = false :=
  c10_rename_same_name_deletes [("n", recN)] "n" (by decide)

/-- Counterexample for C6 as stated: with the store holding an entry "n",
rename with old and new name both "n" returns true, yet afterwards no
entry keyed by the new name exists, contradicting the claim that an entry
keyed by the new name is created whenever the old name is present. -/
theorem c6_rename_counterexample :
    (rename_secret [("n", recN)] "n" "n").1 = true ∧
    dmem (rename_secret [("n", recN)] "n" "n").2 "n" = false := by decide

/-- C6 amended: for distinct old and new names, when the old name is
present rename stores the record (with its name field rewritten) under the
new key — silently overwriting any pre-existing entry there — deletes the
old key, leaves every other key untouched and returns true; when the old
name is absent it returns false and changes nothing. -/
theorem c6_rename_amended (store : Store) (old_name new_name : String)
    (hne : old_name ≠ new_name) :
    (∀ rec, dget store old_name = some rec →
      (rename_secret store old_name new_name).1 = true ∧
      dget (rename_secret store old_name new_name).2 new_name =
        some (objSet rec "name" (.str new_name)) ∧
      dmem (rename_secret store old_name new_name).2 old_name = false ∧
      (∀ k, k ≠ old_name → k ≠ new_name →
        dget (rename_secret store old_name new_name).2 k = dget store k)) ∧
    (dget store old_name = none →
      rename_secret store old_name new_name = (false, store)) := by
  constructor
  · intro rec hrec
    refine ⟨by simp [rename_secret, hrec], ?_, ?_, ?_⟩
    · simp only [rename_secret, hrec]
      rw [dget_ddel_ne _ _ _ (Ne.symm hne), dget_dset_self]
    · simp [rename_secret, hrec, dmem, dget_ddel_self]
    · intro k hko hkn
      simp only [rename_secret, hrec]
      rw [dget_ddel_ne _ _ _ hko, dget_dset_ne _ _ _ _ hkn]
  · intro h
    simp [rename_secret, h]

/-- Witness for C6 amended: renaming "n" to "m" on a one-entry store
rewrites the name field, re-keys the record and returns true. -/
theorem c6_rename_witness :
    (rename_secret [("n", recN)] "n" "m").1 = true ∧
    dget (rename_secret [("n", recN)] "n" "m").2 "m" =
      some (objSet recN "name" (.str "m")) ∧
    dmem (rename_secret [("n", recN)] "n" "m").2 "n" = false := by
  have h := (c6_rename_amended [("n", recN)] "n" "m" (by decide)).1 recN (by
    simp [dget])
  exact ⟨h.1, h.2.1, h.2.2.1⟩

theorem remove_secrets_store_eq (names : List String) :
    ∀ store : Store, (remove_secrets store names).1 =
      store.filter (fun p => !names.contains p.1) := by
  induction names with
  | nil => intro store; simp [remove_secrets]
  | cons n rest ih =>
    intro store
    cases hm : dmem store n with
    | true =>
      simp only [remove_secrets, remove_secret, hm, if_true]
      rw [ih (ddel store n)]
      simp only [ddel, List.filter_filter]
      exact List.filter_congr (fun a _ => by
        by_cases hh : a.1 = n <;>
          simp [List.contains_cons, Bool.not_or, bne, Bool.and_comm, hh])
    | false =>
      have hn : dget store n = none := by
        cases hg : dget store n <;> simp [dmem, hg] at hm ⊢
      simp only [remove_secrets, remove_secret, hm, Bool.false_eq_true, if_false]
      rw [ih store]
      exact List.filter_congr (fun a ha => by
        have : a.1 ≠ n := forall_of_dget_eq_none store n hn a ha
        simp [List.contains_cons, Bool.not_or, this])

theorem remove_secrets_found (names : List String) :
    ∀ store : Store,
      (∀ n, n ∈ (remove_secrets store names).2 ↔ (n ∈ names ∧ dmem store n = true)) ∧
      (remove_secrets store names).2.Nodup := by
  induction names with
  | nil => intro store; simp [remove_secrets]
  | cons m rest ih =>
    intro store
    cases hm : dmem store m with
    | true =>
      have hres : (remove_secrets store (m :: rest)).2
          = m :: (remove_secrets (ddel store m) rest).2 := by
        simp [remove_secrets, remove_secret, hm]
      obtain ⟨hmem, hnd⟩ := ih (ddel store m)
      constructor
      · intro n
        rw [hres]
        simp only [List.mem_cons, hmem]
        constructor
        · rintro (rfl | ⟨hn1, hn2⟩)
          · exact ⟨by simp, hm⟩
          · refine ⟨by simp [hn1], ?_⟩
            by_cases hnm : n = m
            · subst hnm; simp [dmem, dget_ddel_self] at hn2
            · rwa [dmem, dget_ddel_ne _ _ _ hnm] at hn2
        · rintro ⟨hn1, hn2⟩
          rcases hn1 with rfl | hn1
          · exact Or.inl rfl
          · by_cases hnm : n = m
            · exact Or.inl hnm
            · exact Or.inr ⟨hn1, by rwa [dmem, dget_ddel_ne _ _ _ hnm]⟩
      · rw [hres, List.nodup_cons]
        refine ⟨fun hmm => ?_, hnd⟩
        have h2 := ((hmem m).mp hmm).2
        simp [dmem, dget_ddel_self] at h2
    | false =>
      have hres : (remove_secrets store (m :: rest)).2
          = (remove_secrets store rest).2 := by
        simp [remove_secrets, remove_secret, hm]
      obtain ⟨hmem, hnd⟩ := ih store
      refine ⟨?_, by rw [hres]; exact hnd⟩
      intro n
      rw [hres, hmem]
      constructor
      · rintro ⟨h1, h2⟩; exact ⟨by simp [h1], h2⟩
      · rintro ⟨h1, h2⟩
        rcases List.mem_cons.mp h1 with rfl | h1
        · rw [hm] at h2; cases h2
        · exact ⟨h1, h2⟩

/-- C5: the list-taking removal removes exactly the names present in the
store (the resulting store keeps precisely the entries whose key is not in
the list), returns exactly the names that were both asked for and present,
each exactly once; and removing a single absent name returns an empty list
and leaves the store unchanged. -/
theorem c5_remove_subset (store : Store) (names : List String) :
    (remove_secrets store names).1 = store.filter (fun p => !names.contains p.1) ∧
    (∀ n, n ∈ (remove_secrets store names).2 ↔ (n ∈ names ∧ dmem store n = true)) ∧
    (remove_secrets store names).2.Nodup ∧
    (∀ n, dmem store n = false → remove_secrets store [n] = (store, [])) := by
  refine ⟨remove_secrets_store_eq names store, (remove_secrets_found names store).1,
    (remove_secrets_found names store).2, ?_⟩
  intro n hn
  simp [remove_secrets, remove_secret, hn]

/-- Witness for C5: removing the absent name "nope" from a one-entry store
returns the empty list and leaves the store as it was. -/
theorem c5_remove_witness :
    remove_secrets [("n", recN)] ["nope"] = ([("n", recN)], []) :=
  (c5_remove_subset [("n", recN)] ["nope"]).2.2.2 "nope" (by decide)

theorem recGet_scrub_secret (j : Json) : recGet (scrubSecret j) "secret" = none := by
  cases j <;> simp [scrubSecret, recGet, dget_ddel_self]

theorem recGet_scrub_name (j : Json) : recGet (scrubSecret j) "name" = recGet j "name" := by
  cases j <;> simp [scrubSecret, recGet]
  exact dget_ddel_ne _ _ _ (by decide)

/-- C4: listing without secrets returns the records in key order (same
name fields, in order) with the `secret` field absent from every returned
record, while listing with secrets returns the record dicts themselves, so
every returned record carries its `secret` field whenever the stored
records do. -/
theorem c4_listing_secret_policy (store : Store) :
    (∀ r ∈ list_secrets_inc store false, recGet r "secret" = none) ∧
    ((list_secrets_inc store false).map (fun r => recGet r "name")
      = store.map (fun p => recGet p.2 "name")) ∧
    (list_secrets_inc store true = list_secrets store) ∧
    ((∀ p ∈ store, (recGet p.2 "secret").isSome = true) →
      ∀ r ∈ list_secrets_inc store true, (recGet r "secret").isSome = true) := by
  have hfalse : list_secrets_inc store false = store.map (fun p => scrubSecret p.2) := rfl
  have htrue : list_secrets_inc store true = store.map (fun p => p.2) := rfl
  refine ⟨?_, ?_, rfl, ?_⟩
  · intro r hr
    rw [hfalse] at hr
    obtain ⟨p, _, hp⟩ := List.mem_map.mp hr
    rw [← hp]
    exact recGet_scrub_secret p.2
  · simp [list_secrets_inc, recGet_scrub_name]
  · intro hsec r hr
    rw [htrue] at hr
    obtain ⟨p, hp1, hp2⟩ := List.mem_map.mp hr
    rw [← hp2]
    exact hsec p hp1

/-- Witness for C4: on a one-entry store whose record has a secret, the
no-secret listing exposes no secret field and the with-secret listing
does. -/
theorem c4_listing_witness :
    (∀ r ∈ list_secrets_inc [("n", recN)] false, recGet r "secret" = none) ∧
    (∀ r ∈ list_secrets_inc [("n", recN)] true, (recGet r "secret").isSome = true) := by
  have h := c4_listing_secret_policy [("n", recN)]
  exact ⟨h.1, h.2.2.2 (by decide)⟩

theorem insRecord_skip (acc : Store) (x : Json) (h : isNamedRecord x = false) :
    insRecord acc x = acc := by
  cases x
  case obj kvs =>
    simp only [insRecord, isNamedRecord] at h ⊢
    cases hg : dget kvs "name" with
    | none => rfl
    | some v => cases v <;> simp_all
  all_goals rfl

theorem foldl_insRecord_filter (xs : List Json) :
    ∀ acc : Store, xs.foldl insRecord acc = (xs.filter isNamedRecord).foldl insRecord acc := by
  induction xs with
  | nil => intro acc; rfl
  | cons x rest ih =>
    intro acc
    cases hx : isNamedRecord x with
    | true => simp [List.filter_cons, hx, List.foldl_cons, ih]
    | false => simp [List.filter_cons, hx, List.foldl_cons, ih, insRecord_skip acc x hx]

theorem insRecord_keyed (acc : Store) (x : Json)
    (h : ∀ p ∈ acc, recGet p.2 "name" = some (.str p.1)) :
    ∀ p ∈ insRecord acc x, recGet p.2 "name" = some (.str p.1) := by
  intro p hp
  cases x
  case obj kvs =>
    simp only [insRecord] at hp
    cases hg : dget kvs "name"
    case none =>
      rw [hg] at hp
      exact h p hp
    case some v =>
      rw [hg] at hp
      cases v
      case str n =>
        have hp2 : p ∈ (if n = "" then acc else dset acc n (Json.obj kvs)) := hp
        by_cases hn : n = ""
        · rw [if_pos hn] at hp2; exact h p hp2
        · rw [if_neg hn] at hp2
          rcases mem_dset acc n (.obj kvs) p hp2 with hmem | rfl
          · exact h p hmem
          · simp [recGet, hg]
      all_goals exact h p hp
  all_goals exact h p hp

theorem foldl_insRecord_keyed (xs : List Json) :
    ∀ acc : Store, (∀ p ∈ acc, recGet p.2 "name" = some (.str p.1)) →
      ∀ p ∈ xs.foldl insRecord acc, recGet p.2 "name" = some (.str p.1) := by
  induction xs with
  | nil => intro acc h; exact h
  | cons x rest ih => intro acc h; exact ih _ (insRecord_keyed acc x h)

/-- Counterexample for C8 as stated: a `secrets` value that is an array
but not an array of objects does not produce a format error — load
succeeds with an empty store, silently skipping the non-object element. -/
theorem c8_load_counterexample :
    load_fc (.json (.obj [("secrets", .arr [.num 42])])) = .ok [] := rfl

/-- C8 amended: load fails with NotFound when the file is absent, with a
parse error when the content is not valid JSON, with a format error when
the top-level value is not an object or when a `secrets` key is present
whose value is not an array; elements of the array that are not objects,
or that lack a non-empty string `name` field, are silently skipped, and
every loaded record is keyed by its own `name` field. -/
theorem c8_load_errors_amended :
    (load_fc .missing = .error .notFound) ∧
    (load_fc .notJson = .error .parseError) ∧
    (∀ j : Json, isObj j = false → load_fc (.json j) = .error .formatErrorTop) ∧
    (∀ (kvs : Entries) (s : Json), dget kvs "secrets" = some s → isArr s = false →
      load_fc (.json (.obj kvs)) = .error .formatErrorSecrets) ∧
    (∀ kvs : Entries, dget kvs "secrets" = none →
      load_fc (.json (.obj kvs)) = .ok []) ∧
    (∀ (kvs : Entries) (xs : List Json), dget kvs "secrets" = some (.arr xs) →
      load_fc (.json (.obj kvs)) = .ok ((xs.filter isNamedRecord).foldl insRecord [])) ∧
    (∀ (kvs : Entries) (st : Store), load_fc (.json (.obj kvs)) = .ok st →
      ∀ p ∈ st, recGet p.2 "name" = some (.str p.1)) := by
  refine ⟨rfl, rfl, ?_, ?_, ?_, ?_, ?_⟩
  · intro j hj
    cases j <;> simp_all [load_fc, isObj]
  · intro kvs s hs harr
    simp only [load_fc, hs, Option.getD_some]
    cases s <;> simp_all [isArr]
  · intro kvs h
    simp [load_fc, h]
  · intro kvs xs h
    simp only [load_fc, h, Option.getD_some]
    rw [foldl_insRecord_filter]
  · intro kvs st h p hp
    simp only [load_fc] at h
    cases hs : (dget kvs "secrets").getD (.arr []) with
    | null => rw [hs] at h; simp at h
    | bool b => rw [hs] at h; simp at h
    | num n => rw [hs] at h; simp at h
    | str s => rw [hs] at h; simp at h
    | obj o => rw [hs] at h; simp at h
    | arr xs =>
      rw [hs] at h
      have h2 : Except.ok (xs.foldl insRecord []) = Except.ok st := h
      simp only [Except.ok.injEq] at h2
      subst h2
      exact foldl_insRecord_keyed xs [] (by simp) p hp

/-- Witness for C8 amended: a document whose `secrets` array holds one
named record, one record without a name and one non-object loads
successfully with exactly the named record, keyed by its name. -/
theorem c8_load_witness :
    load_fc (.json (.obj [("secrets",
        .arr [recN, .obj [("account", .str "x")], .num 7])]))
      = .ok (([recN, .obj [("account", .str "x")], .num 7].filter
          isNamedRecord).foldl insRecord []) ∧
    load_fc (.json (.obj [("secrets", .str "oops")])) = .error .formatErrorSecrets := by
  constructor
  · exact (c8_load_errors_amended.2.2.2.2.2.1) _ _ rfl
  · exact (c8_load_errors_amended.2.2.2.1) _ (.str "oops") rfl rfl

theorem foldl_insRecord_append (store : Store) :
    ∀ acc : Store,
      (∀ p ∈ store, p.1 ≠ "" ∧ recGet p.2 "name" = some (.str p.1)) →
      (store.map (fun p => p.1)).Nodup →
      (∀ p ∈ store, dmem acc p.1 = false) →
      (store.map (fun p => p.2)).foldl insRecord acc = acc ++ store := by
  induction store with
  | nil => intro acc _ _ _; simp
  | cons q rest ih =>
    intro acc hv hnd hdis
    obtain ⟨hq1, hq2⟩ := hv q (by simp)
    have hins : insRecord acc q.2 = dset acc q.1 q.2 := by
      cases hqv : q.2 with
      | obj kvs =>
        rw [hqv] at hq2
        simp only [recGet] at hq2
        simp only [insRecord, hq2, if_neg hq1]
      | null => rw [hqv] at hq2; simp [recGet] at hq2
      | bool b => rw [hqv] at hq2; simp [recGet] at hq2
      | num n => rw [hqv] at hq2; simp [recGet] at hq2
      | str s => rw [hqv] at hq2; simp [recGet] at hq2
      | arr l => rw [hqv] at hq2; simp [recGet] at hq2
    have hset : dset acc q.1 q.2 = acc ++ [q] := by
      rw [dset_eq_append _ _ _ (hdis q (by simp))]
    have hq_notin : q.1 ∉ rest.map (fun p => p.1) := by
      simp only [List.map_cons, List.nodup_cons] at hnd
      exact hnd.1
    have hnd2 : (rest.map (fun p => p.1)).Nodup := by
      simp only [List.map_cons, List.nodup_cons] at hnd
      exact hnd.2
    have hdis2 : ∀ p ∈ rest, dmem (acc ++ [q]) p.1 = false := by
      intro p hp
      have h1 : dget acc p.1 = none := by
        have hh := hdis p (by simp [hp])
        cases hg : dget acc p.1 <;> simp [dmem, hg] at hh ⊢
      have h2 : ¬ q.1 = p.1 := fun hqp =>
        hq_notin (hqp ▸ List.mem_map_of_mem (fun p => p.1) hp)
      simp [dmem, dget_append, h1, dget, h2]
    simp only [List.map_cons, List.foldl_cons, hins, hset]
    rw [ih (acc ++ [q]) (fun p hp => hv p (by simp [hp])) hnd2 hdis2]
    simp

/-- C3: saving a valid store (unique non-empty keys, each record carrying
its key in its `name` field) and loading the resulting document yields the
same store: same keys in the same insertion order and the very same record
values. -/
theorem c3_save_load_roundtrip (store : Store) (ts : String)
    (hv : ∀ p ∈ store, p.1 ≠ "" ∧ recGet p.2 "name" = some (.str p.1))
    (hnd : (store.map (fun p => p.1)).Nodup) :
    load_fc (.json (save_doc store ts)) = .ok store := by
  have h1 : dget [("secrets", Json.arr (store.map (fun p => p.2))),
      ("version", Json.str "1.0"), ("last_update", Json.str ts)] "secrets"
      = some (.arr (store.map (fun p => p.2))) := by simp [dget]
  simp only [save_doc, load_fc, h1, Option.getD_some]
  rw [foldl_insRecord_append store [] hv hnd (fun p _ => by simp [dmem, dget])]
  simp

/-- A small valid store used to instantiate the round-trip. -/
def demoStore : Store :=
  [("a", Json.obj [("name", .str "a"), ("account", .str "u@x.com"),
     ("issuer", .str "X"), ("secret", .str "JBSWY3DPEHPK3PXP")]),
   ("b", Json.obj [("name", .str "b"), ("account", .str "v@y.com"),
     ("issuer", .str "Y"), ("secret", .str "JBSWY3DPEHPK3PXQ")])]

/-- Witness for C3: the two-entry demo store survives a save/load
round-trip unchanged. -/
theorem c3_roundtrip_witness :
    load_fc (.json (save_doc demoStore "2025-01-01T00:00:00.000000+00:00"))
      = .ok demoStore :=
  c3_save_load_roundtrip demoStore "2025-01-01T00:00:00.000000+00:00"
    (by
      intro p hp
      simp only [demoStore, List.mem_cons, List.not_mem_nil, or_false] at hp
      rcases hp with rfl | rfl
      · exact ⟨by decide, rfl⟩
      · exact ⟨by decide, rfl⟩)
    (by simp [demoStore])

theorem regLoop_append_fail (parse : String → Option ParsedUri) (name bad : String)
    (hbad : parse bad = none) :
    ∀ (good rest2 : List String) (store : Store) (result : List Json) (cnt : Nat),
      (∀ q ∈ good, (parse q).isSome = true) →
      regLoop parse name store result cnt (good ++ bad :: rest2) =
        (some (.invalidQr bad),
         (regLoop parse name store result cnt good).2.1,
         (regLoop parse name store result cnt good).2.2) := by
  intro good
  induction good with
  | nil =>
    intro rest2 store result cnt _
    simp [regLoop, hbad]
  | cons q g ih =>
    intro rest2 store result cnt hall
    obtain ⟨p, hp⟩ : ∃ p, parse q = some p := by
      have hh := hall q (by simp)
      cases hq : parse q <;> simp [hq] at hh ⊢
    simp only [List.cons_append, regLoop, hp]
    exact ih rest2 _ _ _ (fun x hx => hall x (by simp [hx]))

/-- Parse oracle for the concrete counterexamples: only "good" parses. -/
def parse0 : String → Option ParsedUri := fun s =>
  if s = "good" then some ⟨"acct", "iss", "SECRETB32"⟩ else none

/-- Counterexample for C2 as stated: registering ["good", "bad"] on the
empty store raises the invalid-data error, yet the in-memory store is not
left as it was before the call — the record parsed from the earlier
element "good" remains registered. -/
theorem c2_register_counterexample :
    (register_secret parse0 [] "X" ["good", "bad"]).1 = some (.invalidQr "bad") ∧
    (register_secret parse0 [] "X" ["good", "bad"]).2.1 ≠ ([] : Store) := by
  constructor
  · rfl
  · show ¬ ([("X", mkRecord "X" ⟨"acct", "iss", "SECRETB32"⟩)] : Store) = []
    simp

/-- C2 amended: when some element fails to parse, register raises the
parser's invalid-data error; the records parsed from the elements before
the failure remain registered in the in-memory mapping, but at the exposed
operation level the save step is never reached, so the persisted secrets
file is left exactly as it was. -/
theorem c2_register_fail_amended (parse : String → Option ParsedUri)
    (store : Store) (name : String) (good rest2 : List String) (bad : String)
    (hgood : ∀ q ∈ good, (parse q).isSome = true) (hbad : parse bad = none) :
    (register_secret parse store name (good ++ bad :: rest2)).1
      = some (.invalidQr bad) ∧
    (register_secret parse store name (good ++ bad :: rest2)).2.1
      = (register_secret parse store name good).2.1 ∧
    (∀ (ts : String) (sfail : Option SaveFail) (avail : Nat) (fs : FS) (st0 : Store),
      avail ≤ default_lock_timeout →
      load_fc (readMain fs) = .ok st0 →
      (fi_register_secret parse name (good ++ bad :: rest2) ts sfail avail fs).fs = fs ∧
      (fi_register_secret parse name (good ++ bad :: rest2) ts sfail avail fs).result
        = .error (.invalidQr bad)) := by
  have h := regLoop_append_fail parse name bad hbad good rest2 store [] 1 hgood
  refine ⟨?_, ?_, ?_⟩
  · show (regLoop parse name store [] 1 (good ++ bad :: rest2)).1 = _
    rw [h]
  · show (regLoop parse name store [] 1 (good ++ bad :: rest2)).2.1 = _
    rw [h]
    rfl
  · intro ts sfail avail fs st0 havail hload
    have hr := regLoop_append_fail parse name bad hbad good rest2 st0 [] 1 hgood
    constructor <;>
      simp [fi_register_secret, withSession, if_pos havail, regBody, hload,
        register_secret, hr]

/-- Witness for C2 amended: with the one-entry store, registering
["good", "bad"] raises the invalid-data error and leaves the in-memory
mapping exactly as registering only the good elements would. -/
theorem c2_register_fail_witness :
    (register_secret parse0 [("old", recN)] "X" ["good", "bad"]).1
      = some (.invalidQr "bad") ∧
    (register_secret parse0 [("old", recN)] "X" ["good", "bad"]).2.1
      = (register_secret parse0 [("old", recN)] "X" ["good"]).2.1 := by
  have h := c2_register_fail_amended parse0 [("old", recN)] "X" ["good"] [] "bad"
    (by intro q hq; simp at hq; subst hq; rfl) rfl
  exact ⟨h.1, h.2.1⟩

/-- Default parsed value used only to state positional access totally. -/
def pdflt : ParsedUri := ⟨"", "", ""⟩

theorem regLoop_all_ok (parse : String → Option ParsedUri) (name : String) :
    ∀ (qrc : List String) (ps : List ParsedUri) (store : Store)
      (result : List Json) (cnt : Nat),
      qrc.map parse = ps.map some →
      regLoop parse name store result cnt qrc =
        (none,
         (List.range ps.length).foldl
           (fun st i => dset st (deriveName name (cnt + i))
             (mkRecord (deriveName name (cnt + i)) (ps.getD i pdflt))) store,
         result ++ (List.range ps.length).map
           (fun i => mkRecord (deriveName name (cnt + i)) (ps.getD i pdflt))) := by
  intro qrc
  induction qrc with
  | nil =>
    intro ps store result cnt h
    have hps : ps = [] := by
      cases ps with
      | nil => rfl
      | cons a l => simp at h
    subst hps
    simp [regLoop]
  | cons q rest ih =>
    intro ps store result cnt h
    cases ps with
    | nil => simp at h
    | cons p ps2 =>
      simp only [List.map_cons, List.cons.injEq] at h
      obtain ⟨hq, hrest⟩ := h
      simp only [regLoop, hq]
      rw [ih ps2 (dset store (deriveName name cnt) (mkRecord (deriveName name cnt) p))
        (result ++ [mkRecord (deriveName name cnt) p]) (cnt + 1) hrest]
      have hfun : (fun (st : Store) (i : Nat) => dset st (deriveName name (cnt + 1 + i))
            (mkRecord (deriveName name (cnt + 1 + i)) (ps2.getD i pdflt)))
          = (fun (st : Store) (i : Nat) => dset st (deriveName name (cnt + (i + 1)))
            (mkRecord (deriveName name (cnt + (i + 1))) (ps2.getD i pdflt))) := by
        funext st i
        have hoff : cnt + 1 + i = cnt + (i + 1) := by omega
        rw [hoff]
      have hfold : (List.range (ps2.length + 1)).foldl
            (fun (st : Store) (i : Nat) => dset st (deriveName name (cnt + i))
              (mkRecord (deriveName name (cnt + i)) ((p :: ps2).getD i pdflt))) store
          = (List.range ps2.length).foldl
            (fun (st : Store) (i : Nat) => dset st (deriveName name (cnt + 1 + i))
              (mkRecord (deriveName name (cnt + 1 + i)) (ps2.getD i pdflt)))
            (dset store (deriveName name cnt) (mkRecord (deriveName name cnt) p)) := by
        rw [List.range_succ_eq_map, List.foldl_cons, List.foldl_map, hfun]
        simp only [Nat.succ_eq_add_one, List.getD_cons_succ, Nat.add_zero,
          List.getD_cons_zero]
      have hmap : (List.range (ps2.length + 1)).map
            (fun (i : Nat) => mkRecord (deriveName name (cnt + i))
              ((p :: ps2).getD i pdflt))
          = mkRecord (deriveName name cnt) p ::
            (List.range ps2.length).map
              (fun (i : Nat) => mkRecord (deriveName name (cnt + 1 + i))
                (ps2.getD i pdflt)) := by
        rw [List.range_succ_eq_map, List.map_cons, List.map_map]
        simp only [Nat.add_zero, List.getD_cons_zero, List.cons.injEq, true_and]
        congr 1
        funext i
        simp only [Function.comp_apply, Nat.succ_eq_add_one, List.getD_cons_succ]
        have hoff : cnt + (i + 1) = cnt + 1 + i := by omega
        rw [hoff]
      rw [List.length_cons, hfold, hmap]
      simp

/-- C9: when every payload parses, register raises nothing, returns the
newly built records (secrets included) in assignment order — the first
named with the candidate name unchanged and the Nth (from the range index
i, record number i+1) named name_(i+1) — and updates the store by plain
dict assignment of each derived name in order, which silently overwrites
any entry already carrying that exact derived name. -/
theorem c9_register_naming (parse : String → Option ParsedUri)
    (store : Store) (name : String) (qrc : List String) (ps : List ParsedUri)
    (h : qrc.map parse = ps.map some) :
    (register_secret parse store name qrc).1 = none ∧
    (register_secret parse store name qrc).2.2
      = (List.range ps.length).map
          (fun i => mkRecord (deriveName name (i + 1)) (ps.getD i pdflt)) ∧
    (register_secret parse store name qrc).2.1
      = (List.range ps.length).foldl
          (fun st i => dset st (deriveName name (i + 1))
            (mkRecord (deriveName name (i + 1)) (ps.getD i pdflt))) store := by
  have h2 := regLoop_all_ok parse name qrc ps store [] 1 h
  have hcomm : ∀ i : Nat, 1 + i = i + 1 := fun i => Nat.add_comm 1 i
  refine ⟨?_, ?_, ?_⟩
  · show (regLoop parse name store [] 1 qrc).1 = none
    rw [h2]
  · show (regLoop parse name store [] 1 qrc).2.2 = _
    rw [h2]
    simp [hcomm]
  · show (regLoop parse name store [] 1 qrc).2.1 = _
    rw [h2]
    simp [hcomm]

/-- Parse oracle for the registration scenario: u1, u2 and u3 parse. -/
def parse3 : String → Option ParsedUri := fun s =>
  if s = "u1" then some ⟨"a1", "i1", "s1"⟩
  else if s = "u2" then some ⟨"a2", "i2", "s2"⟩
  else if s = "u3" then some ⟨"a3", "i3", "s3"⟩
  else none

/-- Witness for C9: registering "X" with two parsing payloads on the empty
store yields exactly the entries X and X_2; a subsequent register of "X"
with one payload overwrites X only, leaving X_2 untouched. -/
theorem c9_register_witness :
    (register_secret parse3 [] "X" ["u1", "u2"]).1 = none ∧
    (register_secret parse3 [] "X" ["u1", "u2"]).2.1
      = [("X", mkRecord "X" ⟨"a1", "i1", "s1"⟩),
         ("X_2", mkRecord "X_2" ⟨"a2", "i2", "s2"⟩)] ∧
    (register_secret parse3
        (register_secret parse3 [] "X" ["u1", "u2"]).2.1 "X" ["u3"]).2.1
      = [("X", mkRecord "X" ⟨"a3", "i3", "s3"⟩),
         ("X_2", mkRecord "X_2" ⟨"a2", "i2", "s2"⟩)] := by
  have h := c9_register_naming parse3 [] "X" ["u1", "u2"]
    [⟨"a1", "i1", "s1"⟩, ⟨"a2", "i2", "s2"⟩] rfl
  exact ⟨h.1, rfl, rfl⟩

end Mktotp
